import Mathlib

/-!
Verification of the parse/lookup core of a small OUI lookup service
written in Go (main.go).  The Go code is shallowly embedded below:

  - strings are modelled as Lean `String` / `List Char` (the relevant
    data is ASCII, where Go byte length and rune length agree);
  - `strconv.ParseInt(s, 16, 48)` is modelled by `goParseInt16_48`
    (base-16 digits, optional sign, signed 48-bit range check);
  - the loader regular expression
    (?m)^([0-9a-fA-F]\x7b2\x7d(-[0-9a-fA-F]\x7b2\x7d)\x7b2\x7d)\s+\(hex\)\s+(.*)\n([0-9a-fA-F]\x7b6\x7d)\s+\(base 16\)\s+(.*)$
    is modelled by a direct leftmost-first matcher (`scanAux`), with
    Perl-style greedy backtracking (Go regexp semantics); the only
    nondeterministic point of the pattern is the run of `\s+` before the
    vendor-name capture, resolved greedily by `tryS2`;
  - the Go map is modelled by an association list with overwriting
    insert (`mapInsert`), which realises the map's key-to-value function;
  - `log.Fatal` terminates the process; a code path reaching it is
    modelled by the `none` result of `NewOUI` / `makeMACHashMap`.
-/

namespace Ilack

/-- Character class [0-9a-fA-F] of the loader regular expression
(codes: 0-9 are 48-57, a-f are 97-102, A-F are 65-70). -/
def isHexDigitCh (c : Char) : Bool :=
  decide ((48 ≤ c.toNat ∧ c.toNat ≤ 57) ∨ (97 ≤ c.toNat ∧ c.toNat ≤ 102) ∨
    (65 ≤ c.toNat ∧ c.toNat ≤ 70))

/-- Go regexp `\s` class: tab 9, newline 10, form feed 12, carriage return 13, space 32. -/
def isGoSpace (c : Char) : Bool :=
  decide (c.toNat = 32 ∨ c.toNat = 9 ∨ c.toNat = 10 ∨ c.toNat = 12 ∨ c.toNat = 13)

/-- ASCII fragment of Go `unicode.IsSpace`, used by `strings.TrimSpace`:
tab 9, newline 10, vertical tab 11, form feed 12, carriage return 13, space 32.
All data handled by the program is ASCII. -/
def isTrimSpaceCh (c : Char) : Bool :=
  decide (c.toNat = 32 ∨ (9 ≤ c.toNat ∧ c.toNat ≤ 13))

/-- Embedding of Go `strings.TrimSpace` (ASCII fragment). -/
def goTrimSpace (s : String) : String :=
  String.mk (((s.data.dropWhile isTrimSpaceCh).reverse.dropWhile isTrimSpaceCh).reverse)

/-- ASCII fragment of Go `strings.ToUpper` on one character
(all prefixes handled by the program are ASCII hex strings). -/
def goToUpperChar (c : Char) : Char :=
  if 97 ≤ c.toNat ∧ c.toNat ≤ 122 then Char.ofNat (c.toNat - 32) else c

/-- Embedding of Go `strings.ToUpper` (ASCII fragment). -/
def goToUpper (s : String) : String :=
  String.mk (s.data.map goToUpperChar)

/-- Value of one base-16 digit, as in Go `strconv.ParseUint` with base 16. -/
def hexDigitVal (c : Char) : Option Nat :=
  if 48 ≤ c.toNat ∧ c.toNat ≤ 57 then some (c.toNat - 48)
  else if 97 ≤ c.toNat ∧ c.toNat ≤ 102 then some (c.toNat - 87)
  else if 65 ≤ c.toNat ∧ c.toNat ≤ 70 then some (c.toNat - 55)
  else none

/-- Accumulating base-16 digit parser (Go `strconv.ParseUint` digit loop). -/
def parseHexNatAux (acc : Nat) : List Char → Option Nat
  | [] => some acc
  | c :: r =>
    match hexDigitVal c with
    | some d => parseHexNatAux (acc * 16 + d) r
    | none => none

/-- Unsigned digit part of `strconv.ParseInt(s, 16, 48)` for a non-negative
number: digits must be nonempty and the value at most 2^47 - 1. -/
def goParseIntPos (l : List Char) : Option Int :=
  if l.isEmpty then none
  else
    match parseHexNatAux 0 l with
    | some n => if n ≤ 2 ^ 47 - 1 then some (Int.ofNat n) else none
    | none => none

/-- Negative case of `strconv.ParseInt(s, 16, 48)`: magnitude at most 2^47. -/
def goParseIntNeg (l : List Char) : Option Int :=
  if l.isEmpty then none
  else
    match parseHexNatAux 0 l with
    | some n => if n ≤ 2 ^ 47 then some (-(Int.ofNat n)) else none
    | none => none

/-- Embedding of Go `strconv.ParseInt(s, 16, 48)`: optional sign, base-16
digits, result must fit in a signed 48-bit integer. `none` is a parse error. -/
def goParseInt16_48 (s : String) : Option Int :=
  match s.data with
  | [] => none
  | c :: rest =>
    if c = '+' then goParseIntPos rest
    else if c = '-' then goParseIntNeg rest
    else goParseIntPos (c :: rest)

/-- Embedding of the Go struct OUIData (fields oui, vendor_name,
vendor_alternate_name). -/
structure OUIData where
  OUI : String
  VendorName : String
  VendorAlternateName : String
deriving DecidableEq

/-- Embedding of Go `NewOUI`.  On a prefix that fails
`strconv.ParseInt(oui, 16, 48)` the Go code calls `log.Fatal`, which
terminates the process (the subsequent `return m, errors.New(...)` is dead
code); that path is modelled by `none`.  Otherwise the entry is built with
the prefix stored verbatim and both names trimmed. -/
def NewOUI (oui vendorName vendorAlternateName : String) : Option OUIData :=
  match goParseInt16_48 oui with
  | none => none
  | some _ =>
    some { OUI := oui, VendorName := goTrimSpace vendorName,
           VendorAlternateName := goTrimSpace vendorAlternateName }

/-- One submatch of the loader regular expression: the three named capture
groups vendorName, OUI and vendorAlternateName (called alt here). -/
structure RawMatch where
  vendorName : List Char
  oui : List Char
  alt : List Char
deriving DecidableEq

/-- Take exactly n characters of class [0-9a-fA-F] from the front. -/
def takeHex : Nat → List Char → Option (List Char × List Char)
  | 0, s => some ([], s)
  | _ + 1, [] => none
  | n + 1, c :: s =>
    if isHexDigitCh c then
      match takeHex n s with
      | some (h, r) => some (c :: h, r)
      | none => none
    else none

/-- Match a literal character sequence at the front of the input. -/
def stripLit : List Char → List Char → Option (List Char)
  | [], s => some s
  | _ :: _, [] => none
  | c :: l, d :: s => if c = d then stripLit l s else none

/-- Continuation of the loader pattern from the start of the vendorName
capture: `(.*)\n([0-9a-fA-F]\x7b6\x7d)\s+\(base 16\)\s+(.*)$`.  Each step
here is forced (no backtracking): the greedy `.*` must stop at the next
newline for the literal `\n` to match, the two inner `\s+` runs are
followed by `(`, which is not a space, so only their maximal extent can
succeed, and the final `.*$` always matches the rest of the line. -/
def matchTail (t : List Char) : Option (RawMatch × List Char) :=
  match t.dropWhile (fun c => c != '\n') with
  | '\n' :: r1 =>
    match takeHex 6 r1 with
    | none => none
    | some (oui, r2) =>
      if (r2.takeWhile isGoSpace).isEmpty then none
      else
        match stripLit "(base 16)".data (r2.dropWhile isGoSpace) with
        | none => none
        | some r4 =>
          if (r4.takeWhile isGoSpace).isEmpty then none
          else
            some ({ vendorName := t.takeWhile (fun c => c != '\n'),
                    oui := oui,
                    alt := (r4.dropWhile isGoSpace).takeWhile (fun c => c != '\n') },
                  (r4.dropWhile isGoSpace).dropWhile (fun c => c != '\n'))
  | _ => none

/-- Greedy resolution of the `\s+` run before the vendorName capture:
`run` is the maximal whitespace run after `(hex)`, `rest` the text after
it.  The pattern consumes k characters of the run (longest first, Perl
semantics), the remainder of the run starts the `.*` capture. -/
def tryS2 (run rest : List Char) : Nat → Option (RawMatch × List Char)
  | 0 => none
  | k + 1 =>
    match matchTail (run.drop (k + 1) ++ rest) with
    | some res => some res
    | none => tryS2 run rest k

/-- Attempt to match the loader pattern at a line start:
`([0-9a-fA-F]\x7b2\x7d(-[0-9a-fA-F]\x7b2\x7d)\x7b2\x7d)\s+\(hex\)\s+` then the tail.
The `\s+` before `(hex)` is followed by `(`, so only its maximal extent
can succeed. -/
def matchAt (s : List Char) : Option (RawMatch × List Char) :=
  match takeHex 2 s with
  | none => none
  | some (_, r1) =>
    match r1 with
    | '-' :: r2 =>
      match takeHex 2 r2 with
      | none => none
      | some (_, r3) =>
        match r3 with
        | '-' :: r4 =>
          match takeHex 2 r4 with
          | none => none
          | some (_, r5) =>
            if (r5.takeWhile isGoSpace).isEmpty then none
            else
              match stripLit "(hex)".data (r5.dropWhile isGoSpace) with
              | none => none
              | some r7 =>
                tryS2 (r7.takeWhile isGoSpace) (r7.dropWhile isGoSpace)
                  (r7.takeWhile isGoSpace).length
        | _ => none
    | _ => none

/-- Leftmost scan of `FindAllStringSubmatch`: attempt the pattern at every
line start (the pattern is anchored by a multiline `^`), emit successive
non-overlapping matches, continue right after each match.  The position
right after a match is never a line start (the final `.*$` stops before a
newline and, after maximal `\s+`, is nonempty or at end of text).  Fuel
decreases once per character consumed and is sufficient when it starts at
the length of the text plus one. -/
def scanAux : Nat → Bool → List Char → List RawMatch
  | 0, _, _ => []
  | fuel + 1, true, s =>
    match matchAt s with
    | some (m, rest) => m :: scanAux fuel false rest
    | none =>
      match s with
      | [] => []
      | c :: t => scanAux fuel (c == '\n') t
  | fuel + 1, false, s =>
    match s with
    | [] => []
    | c :: t => scanAux fuel (c == '\n') t

/-- All submatches of the loader regular expression over the source text,
in textual order (Go `FindAllStringSubmatch(text, -1)`). -/
def findAllOUIMatches (text : String) : List RawMatch :=
  scanAux (text.data.length + 1) true text.data

/-- Go map insertion `results[k] = v`: overwrite the binding of k if
present, otherwise add it. -/
def mapInsert : List (String × OUIData) → String → OUIData → List (String × OUIData)
  | [], k, v => [(k, v)]
  | (k2, v2) :: rest, k, v =>
    if k2 = k then (k, v) :: rest else (k2, v2) :: mapInsert rest k v

/-- Go map read `results[k]`. -/
def mapLookup : List (String × OUIData) → String → Option OUIData
  | [], _ => none
  | (k2, v) :: rest, k => if k2 = k then some v else mapLookup rest k

/-- Loop body of Go `makeMACHashMap` over the regex matches: build each
entry with `NewOUI`, store it in the map under its prefix and append it to
the global `allOUIs` slice.  `none` models the process terminating inside
`NewOUI` (`log.Fatal`); the Go `continue` on error is unreachable. -/
def makeMACHashMapAux :
    List RawMatch → List (String × OUIData) → List OUIData →
    Option (List (String × OUIData) × List OUIData)
  | [], results, acc => some (results, acc)
  | m :: rest, results, acc =>
    match NewOUI (String.mk m.oui) (String.mk m.vendorName) (String.mk m.alt) with
    | none => none
    | some e => makeMACHashMapAux rest (mapInsert results e.OUI e) (acc ++ [e])

/-- Embedding of Go `makeMACHashMap` applied to the text of the source
file (the file read itself is outside this core): returns the prefix map
together with the final contents of the global `allOUIs` slice, or `none`
if the process would terminate during the load. -/
def makeMACHashMap (text : String) :
    Option (List (String × OUIData) × List OUIData) :=
  makeMACHashMapAux (findAllOUIMatches text) [] []

/-- The ordered entry list produced by loading the given source text. -/
def loadedOUIs (text : String) : Option (List OUIData) :=
  (makeMACHashMap text).map (fun p => p.2)

/-- Embedding of Go `ListOUIs`: returns the global slice. -/
def ListOUIs (allOUIs : List OUIData) : List OUIData :=
  allOUIs

/-- Embedding of Go `GetOUI`: linear scan of the global slice, returning
the first entry whose stored prefix equals the uppercased input, `none`
(Go nil) when there is none. -/
def GetOUI (allOUIs : List OUIData) (oui : String) : Option OUIData :=
  allOUIs.find? (fun o => o.OUI == goToUpper oui)

/-- Character class [a-zA-Z0-9 ] kept by `normalizeMac` (note the space,
code 32, which is part of the class in the Go source). -/
def normalizeKeep (c : Char) : Bool :=
  decide ((97 ≤ c.toNat ∧ c.toNat ≤ 122) ∨ (65 ≤ c.toNat ∧ c.toNat ≤ 90) ∨
    (48 ≤ c.toNat ∧ c.toNat ≤ 57) ∨ c.toNat = 32)

/-- Replacement step of Go `normalizeMac`: delete every character outside
the class [a-zA-Z0-9 ] (ReplaceAllString with the empty string). -/
def normalizeMacStr (mac : String) : String :=
  String.mk (mac.data.filter normalizeKeep)

/-- Embedding of Go `normalizeMac`: the replaced string must have length
exactly 12 (all kept characters are ASCII, so Go byte length and
character length agree); otherwise an error is returned. -/
def normalizeMac (mac : String) : Option String :=
  if (normalizeMacStr mac).length = 12 then some (normalizeMacStr mac) else none

/-- Embedding of Go `GetVendorFromMAC`: normalize, look up the first six
characters of the normalized address, return the vendor name on a match
and the empty string otherwise (the error path only logs, it does not
terminate). -/
def GetVendorFromMAC (allOUIs : List OUIData) (mac : String) : String :=
  match normalizeMac mac with
  | none => ""
  | some macToFind =>
    match GetOUI allOUIs (String.mk (macToFind.data.take 6)) with
    | some o => o.VendorName
    | none => ""

/-- Spec-side predicate: ASCII letter or digit (codes 48-57, 65-90, 97-122). -/
def isAsciiAlnum (c : Char) : Bool :=
  decide ((48 ≤ c.toNat ∧ c.toNat ≤ 57) ∨ (65 ≤ c.toNat ∧ c.toNat ≤ 90) ∨
    (97 ≤ c.toNat ∧ c.toNat ≤ 122))

/-- The entry that the loader builds from one regex submatch. -/
def entryOfMatch (m : RawMatch) : OUIData :=
  { OUI := String.mk m.oui, VendorName := goTrimSpace (String.mk m.vendorName),
    VendorAlternateName := goTrimSpace (String.mk m.alt) }

/-- Whether the OUI capture group of a submatch is six hex digits (true of
every submatch the pattern can produce). -/
def ouiOK (m : RawMatch) : Prop :=
  m.oui.length = 6 ∧ m.oui.all isHexDigitCh = true

/-- Source text whose first two-line record has the non-hex prefix GGGGGG
and whose second record is well formed. -/
def exSkipText : String :=
  "GG-GG-GG  (hex)  Bad\nGGGGGG  (base 16)  Bad\nAA-BB-CC  (hex)  Good\nAABBCC  (base 16)  Good Ltd\n"

/-- The entry of the well-formed record of `exSkipText`. -/
def exGoodEntry : OUIData :=
  { OUI := "AABBCC", VendorName := "Good", VendorAlternateName := "Good Ltd" }

/-- The prefix map produced by loading `exSkipText`. -/
def exSkipMap : List (String × OUIData) :=
  [("AABBCC", exGoodEntry)]

/-- Source text with a single record whose base-16 prefix is lowercase. -/
def exLCText : String :=
  "aa-bb-cc  (hex)  Lower\naabbcc  (base 16)  Lower Ltd\n"

/-- The entry loaded from `exLCText`: the prefix is stored verbatim,
in lowercase. -/
def exLCEntry : OUIData :=
  { OUI := "aabbcc", VendorName := "Lower", VendorAlternateName := "Lower Ltd" }

/-- Source text with two valid records sharing the prefix AABBCC. -/
def exDupText : String :=
  "AA-BB-CC  (hex)  VendorOne\nAABBCC  (base 16)  One Ltd\nAA-BB-CC  (hex)  VendorTwo\nAABBCC  (base 16)  Two Ltd\n"

/-- First entry of `exDupText`. -/
def exDupE1 : OUIData :=
  { OUI := "AABBCC", VendorName := "VendorOne", VendorAlternateName := "One Ltd" }

/-- Second entry of `exDupText`. -/
def exDupE2 : OUIData :=
  { OUI := "AABBCC", VendorName := "VendorTwo", VendorAlternateName := "Two Ltd" }

/-- The prefix map produced by loading `exDupText`: the second entry has
overwritten the first. -/
def exDupMap : List (String × OUIData) :=
  [("AABBCC", exDupE2)]

/-- Source text with a record whose vendor-name capture is empty (the
whitespace after `(hex)` runs to the end of the line). -/
def exEmptyText : String :=
  "AA-BB-CC  (hex)  \nAABBCC  (base 16)  Alt\n"

/-- The entry loaded from `exEmptyText`: its vendor name is empty. -/
def exEmptyEntry : OUIData :=
  { OUI := "AABBCC", VendorName := "", VendorAlternateName := "Alt" }

set_option maxRecDepth 100000

theorem string_data_mk (l : List Char) : (String.mk l).data = l := rfl

theorem char_eq_iff_toNat (a b : Char) : a = b ↔ a.toNat = b.toNat := by
  constructor
  · intro h
    rw [h]
  · intro h
    rcases a with ⟨⟨a, ha⟩, va⟩
    rcases b with ⟨⟨b, hb⟩, vb⟩
    simp [Char.toNat, UInt32.toNat] at h
    subst h
    rfl

theorem hexDigitVal_of_isHex (c : Char) (h : isHexDigitCh c = true) :
    ∃ d, hexDigitVal c = some d ∧ d ≤ 15 := by
  have h2 : (48 ≤ c.toNat ∧ c.toNat ≤ 57) ∨ (97 ≤ c.toNat ∧ c.toNat ≤ 102) ∨
      (65 ≤ c.toNat ∧ c.toNat ≤ 70) := by simp [isHexDigitCh] at h; exact h
  unfold hexDigitVal
  split
  · exact ⟨_, rfl, by omega⟩
  · split
    · exact ⟨_, rfl, by omega⟩
    · split
      · exact ⟨_, rfl, by omega⟩
      · exfalso
        omega

theorem parseHexNatAux_all : ∀ (l : List Char) (acc : Nat), l.all isHexDigitCh = true →
    ∃ n, parseHexNatAux acc l = some n ∧ n < (acc + 1) * 16 ^ l.length := by
  intro l
  induction l with
  | nil =>
    intro acc _
    exact ⟨acc, rfl, by simp⟩
  | cons c t ih =>
    intro acc hall
    rw [List.all_cons, Bool.and_eq_true] at hall
    obtain ⟨hc, ht⟩ := hall
    obtain ⟨d, hd, hdle⟩ := hexDigitVal_of_isHex c hc
    obtain ⟨n, hn, hbound⟩ := ih (acc * 16 + d) ht
    refine ⟨n, ?_, ?_⟩
    · simp [parseHexNatAux, hd, hn]
    · calc n < (acc * 16 + d + 1) * 16 ^ t.length := hbound
        _ ≤ ((acc + 1) * 16) * 16 ^ t.length := Nat.mul_le_mul_right _ (by omega)
        _ = (acc + 1) * 16 ^ (t.length + 1) := by ring
        _ = (acc + 1) * 16 ^ (c :: t).length := by rw [List.length_cons]

theorem goParseInt_hex6 (h : List Char) (hlen : h.length = 6)
    (hall : h.all isHexDigitCh = true) :
    (goParseInt16_48 (String.mk h)).isSome = true := by
  cases h with
  | nil => simp at hlen
  | cons c t =>
    have hc : isHexDigitCh c = true := by
      rw [List.all_cons, Bool.and_eq_true] at hall
      exact hall.1
    have hplus : ¬ c = '+' := by
      intro e
      rw [e] at hc
      exact absurd hc (by decide)
    have hminus : ¬ c = '-' := by
      intro e
      rw [e] at hc
      exact absurd hc (by decide)
    obtain ⟨n, hn, hbound⟩ := parseHexNatAux_all (c :: t) 0 hall
    show (if c = '+' then goParseIntPos t
      else if c = '-' then goParseIntNeg t else goParseIntPos (c :: t)).isSome = true
    rw [if_neg hplus, if_neg hminus]
    unfold goParseIntPos
    rw [if_neg (by simp), hn]
    rw [hlen] at hbound
    show (if n ≤ 2 ^ 47 - 1 then some (Int.ofNat n) else none).isSome = true
    have hb2 : n < 16777216 := by norm_num at hbound; exact hbound
    have hle : n ≤ 2 ^ 47 - 1 := by norm_num; omega
    rw [if_pos hle]
    rfl

theorem NewOUI_of_ouiOK (m : RawMatch) (h : ouiOK m) :
    NewOUI (String.mk m.oui) (String.mk m.vendorName) (String.mk m.alt)
      = some (entryOfMatch m) := by
  obtain ⟨hlen, hall⟩ := h
  have hp : (goParseInt16_48 (String.mk m.oui)).isSome = true :=
    goParseInt_hex6 m.oui hlen hall
  obtain ⟨v, hv⟩ := Option.isSome_iff_exists.mp hp
  unfold NewOUI
  rw [hv]
  rfl

theorem takeHex_spec : ∀ (n : Nat) (s h r : List Char), takeHex n s = some (h, r) →
    h.length = n ∧ h.all isHexDigitCh = true := by
  intro n
  induction n with
  | zero =>
    intro s h r he
    simp [takeHex] at he
    rcases he with ⟨rfl, rfl⟩
    exact ⟨rfl, rfl⟩
  | succ n ih =>
    intro s h r he
    cases s with
    | nil => exact Option.noConfusion he
    | cons c t =>
      unfold takeHex at he
      by_cases hc : isHexDigitCh c
      · rw [if_pos hc] at he
        cases htk : takeHex n t with
        | none => rw [htk] at he; exact Option.noConfusion he
        | some p =>
          obtain ⟨hh, rr⟩ := p
          rw [htk] at he
          have he2 : c :: hh = h ∧ rr = r := by
            constructor
            · exact congrArg Prod.fst (Option.some.inj he)
            · exact congrArg Prod.snd (Option.some.inj he)
          obtain ⟨hlen, hall⟩ := ih t hh rr htk
          rw [← he2.1]
          constructor
          · simp [hlen]
          · rw [List.all_cons, Bool.and_eq_true]
            exact ⟨hc, hall⟩
      · rw [if_neg hc] at he
        exact Option.noConfusion he

theorem matchTail_oui : ∀ (t : List Char) (m : RawMatch) (rest : List Char),
    matchTail t = some (m, rest) → ouiOK m := by
  intro t m rest h
  unfold matchTail at h
  split at h
  · split at h
    · exact Option.noConfusion h
    · next oui r2 htk =>
      split at h
      · exact Option.noConfusion h
      · split at h
        · exact Option.noConfusion h
        · next r4 hstrip =>
          split at h
          · exact Option.noConfusion h
          · have h2 := Option.some.inj h
            rw [Prod.mk.injEq] at h2
            obtain ⟨hm, _⟩ := h2
            obtain ⟨hlen, hall⟩ := takeHex_spec 6 _ oui r2 htk
            rw [← hm]
            exact ⟨hlen, hall⟩
  · exact Option.noConfusion h

theorem tryS2_oui : ∀ (run rest : List Char) (k : Nat) (m : RawMatch) (r2 : List Char),
    tryS2 run rest k = some (m, r2) → ouiOK m := by
  intro run rest k
  induction k with
  | zero =>
    intro m r2 h
    exact Option.noConfusion h
  | succ k ih =>
    intro m r2 h
    unfold tryS2 at h
    split at h
    · next res hmt =>
      obtain ⟨m2, rest2⟩ := res
      have h2 := Option.some.inj h
      rw [Prod.mk.injEq] at h2
      rw [← h2.1]
      exact matchTail_oui _ m2 rest2 hmt
    · exact ih m r2 h

theorem matchAt_oui : ∀ (s : List Char) (m : RawMatch) (rest : List Char),
    matchAt s = some (m, rest) → ouiOK m := by
  intro s m rest h
  unfold matchAt at h
  split at h
  · exact Option.noConfusion h
  · split at h
    · split at h
      · exact Option.noConfusion h
      · split at h
        · split at h
          · exact Option.noConfusion h
          · split at h
            · exact Option.noConfusion h
            · split at h
              · exact Option.noConfusion h
              · exact tryS2_oui _ _ _ m rest h
        · exact Option.noConfusion h
    · exact Option.noConfusion h

theorem scanAux_oui : ∀ (fuel : Nat) (b : Bool) (s : List Char) (m : RawMatch),
    m ∈ scanAux fuel b s → ouiOK m := by
  intro fuel
  induction fuel with
  | zero =>
    intro b s m hm
    simp [scanAux] at hm
  | succ fuel ih =>
    intro b s m hm
    cases b with
    | true =>
      simp only [scanAux] at hm
      split at hm
      · next m2 rest hma =>
        rcases List.mem_cons.mp hm with h1 | h2
        · rw [h1]
          exact matchAt_oui s m2 rest hma
        · exact ih false rest m h2
      · split at hm
        · exact absurd hm (List.not_mem_nil m)
        · exact ih _ _ m hm
    | false =>
      simp only [scanAux] at hm
      split at hm
      · exact absurd hm (List.not_mem_nil m)
      · exact ih _ _ m hm

theorem findAll_ouiOK (text : String) :
    ∀ m ∈ findAllOUIMatches text, ouiOK m :=
  fun m hm => scanAux_oui (text.data.length + 1) true text.data m hm

theorem makeAux_eq : ∀ (ms : List RawMatch), (∀ m ∈ ms, ouiOK m) →
    ∀ (mp : List (String × OUIData)) (acc : List OUIData),
    makeMACHashMapAux ms mp acc =
      some (List.foldl (fun m2 e => mapInsert m2 e.OUI e) mp (ms.map entryOfMatch),
            acc ++ ms.map entryOfMatch) := by
  intro ms
  induction ms with
  | nil =>
    intro _ mp acc
    simp [makeMACHashMapAux]
  | cons m rest ih =>
    intro hok mp acc
    have hm : ouiOK m := hok m (List.mem_cons_self m rest)
    have hnew : NewOUI (String.mk m.oui) (String.mk m.vendorName) (String.mk m.alt)
        = some (entryOfMatch m) := NewOUI_of_ouiOK m hm
    simp only [makeMACHashMapAux, hnew]
    rw [ih (fun x hx => hok x (List.mem_cons_of_mem m hx))]
    simp [List.append_assoc]

theorem mapLookup_insert (mp : List (String × OUIData)) (k : String) (v : OUIData)
    (p : String) :
    mapLookup (mapInsert mp k v) p = if k = p then some v else mapLookup mp p := by
  induction mp with
  | nil => simp [mapInsert, mapLookup]
  | cons kv rest ih =>
    obtain ⟨k2, v2⟩ := kv
    by_cases h2 : k2 = k
    · subst h2
      by_cases h3 : k2 = p <;> simp [mapInsert, mapLookup, h3]
    · by_cases h3 : k2 = p
      · subst h3
        simp [mapInsert, mapLookup, h2, Ne.symm h2]
      · simp [mapInsert, mapLookup, h2, h3, ih]

theorem mapLookup_foldl : ∀ (es : List OUIData) (mp : List (String × OUIData))
    (p : String),
    mapLookup (List.foldl (fun m2 e => mapInsert m2 e.OUI e) mp es) p =
      (es.reverse.find? (fun o => o.OUI == p)).or (mapLookup mp p) := by
  intro es
  induction es with
  | nil =>
    intro mp p
    simp
  | cons e rest ih =>
    intro mp p
    simp only [List.foldl_cons]
    rw [ih]
    rw [List.reverse_cons, List.find?_append, mapLookup_insert]
    cases hf : rest.reverse.find? (fun o => o.OUI == p) with
    | some x => simp
    | none =>
      simp only [Option.none_or]
      by_cases he : e.OUI = p
      · have hbe : (fun o => o.OUI == p) e = true := by simp [he]
        have hfind : List.find? (fun o => o.OUI == p) [e] = some e :=
          @List.find?_cons_of_pos _ (fun o => o.OUI == p) e [] hbe
        rw [if_pos he, hfind]
        rfl
      · have hbe : ¬ ((fun o => o.OUI == p) e = true) := by simp [he]
        have hfind : List.find? (fun o => o.OUI == p) [e] =
            List.find? (fun o => o.OUI == p) [] :=
          @List.find?_cons_of_neg _ (fun o => o.OUI == p) e [] hbe
        rw [if_neg he, hfind, List.find?_nil, Option.none_or]

theorem normalizeKeep_eq (c : Char) :
    normalizeKeep c = (isAsciiAlnum c || c == ' ') := by
  rw [Bool.eq_iff_iff]
  rw [Bool.or_eq_true, beq_iff_eq]
  rw [char_eq_iff_toNat]
  have hsp : (' ' : Char).toNat = 32 := rfl
  rw [hsp]
  simp only [normalizeKeep, isAsciiAlnum, decide_eq_true_eq]
  tauto

/-- C1: during load, a record whose extracted prefix fails to parse as a
base-16 integer is rejected and skipped while loading continues with the
subsequent records, and no source text makes the load abort or terminate
the process.  First conjunct: the loader succeeds on every text (every
prefix the pattern can extract is six hex digits, so the fatal path of
NewOUI is unreachable from the loader).  Second: the prefix GGGGGG of
the malformed record of exSkipText indeed fails to parse.  Third: loading
exSkipText drops that record and still loads the following valid one. -/
theorem c1_malformed_record_skipped_load_never_fatal :
    (∀ text : String, (makeMACHashMap text).isSome = true) ∧
    goParseInt16_48 "GGGGGG" = none ∧
    loadedOUIs exSkipText = some [exGoodEntry] := by
  refine ⟨?_, by decide, by decide⟩
  intro text
  rw [makeMACHashMap, makeAux_eq (findAllOUIMatches text) (findAll_ouiOK text) [] []]
  rfl

/-- C2 counterexample: the registry loaded from exLCText stores its only
prefix verbatim in lowercase (prefixes are not canonicalized to
uppercase), and GetOUI, which compares stored prefixes against the
uppercased input, finds that entry neither under the lowercase input nor
under its uppercase form — so there is a loaded prefix that get does not
return under any case of the input, contrary to the claim. -/
theorem c2_counterexample_lowercase_stored :
    loadedOUIs exLCText = some [exLCEntry] ∧
    exLCEntry.OUI = "aabbcc" ∧
    GetOUI [exLCEntry] "aabbcc" = none ∧
    GetOUI [exLCEntry] "AABBCC" = none := by
  exact ⟨by decide, rfl, by decide, by decide⟩

/-- C2 (amended): for every entry of a loaded registry whose stored prefix
is uppercase-canonical (uppercasing it is the identity), GetOUI returns an
entry bearing exactly that prefix for every input string whose uppercasing
equals the stored prefix, i.e. regardless of the case of the input. -/
theorem c2_amended_get_case_insensitive (text : String)
    (mp : List (String × OUIData)) (l : List OUIData) (e : OUIData) (s : String)
    ( _hload : makeMACHashMap text = some (mp, l)) (he : e ∈ ListOUIs l)
    ( _hupper : goToUpper e.OUI = e.OUI) (hs : goToUpper s = e.OUI) :
    ∃ e2, GetOUI l s = some e2 ∧ e2.OUI = e.OUI := by
  have hsome : (l.find? fun o => o.OUI == goToUpper s).isSome = true := by
    rw [List.find?_isSome]
    exact ⟨e, he, by simp [hs]⟩
  obtain ⟨e2, h2⟩ := Option.isSome_iff_exists.mp hsome
  refine ⟨e2, h2, ?_⟩
  have h3 := List.find?_some h2
  simp only [beq_iff_eq] at h3
  rw [hs] at h3
  exact h3

/-- C2 witness: the amended theorem applied to the registry loaded from
exSkipText, whose stored prefix AABBCC is uppercase, and the mixed-case
input aAbBcC. -/
theorem c2_witness :
    makeMACHashMap exSkipText = some (exSkipMap, [exGoodEntry]) ∧
    goToUpper "aAbBcC" = exGoodEntry.OUI ∧
    (∃ e2, GetOUI [exGoodEntry] "aAbBcC" = some e2 ∧ e2.OUI = exGoodEntry.OUI) := by
  have hload : makeMACHashMap exSkipText = some (exSkipMap, [exGoodEntry]) := by decide
  exact ⟨hload, by decide,
    c2_amended_get_case_insensitive exSkipText exSkipMap [exGoodEntry] exGoodEntry
      "aAbBcC" hload (by decide) (by decide) (by decide)⟩

/-- C3 counterexample: normalization keeps spaces (the character class of
the replacement regex contains a space), so the normalized form of an
input containing spaces is not made of letters and digits only. -/
theorem c3_counterexample_space_kept :
    normalizeMacStr "AA BB CC 11 22 33" = "AA BB CC 11 22 33" ∧
    ((normalizeMacStr "AA BB CC 11 22 33").data.all isAsciiAlnum) = false := by
  exact ⟨by decide, by decide⟩

/-- C3 (amended): the normalization step of resolve removes exactly the
characters that are neither ASCII letters, nor digits, nor the space
character: the normalized string is the subsequence of characters of the
input that are ASCII letters, digits or spaces. -/
theorem c3_amended_normalize_keeps_alnum_and_space (mac : String) :
    (normalizeMacStr mac).data =
      mac.data.filter (fun c => isAsciiAlnum c || c == ' ') := by
  show mac.data.filter normalizeKeep = _
  exact List.filter_congr (fun c _ => normalizeKeep_eq c)

/-- C4 counterexample: the entry loaded from exLCText is in the list
returned by ListOUIs, yet GetOUI applied to that entry's own prefix
returns nothing, because the stored lowercase prefix never equals the
uppercased input — the round-trip of the claim fails. -/
theorem c4_counterexample_roundtrip_fails :
    loadedOUIs exLCText = some [exLCEntry] ∧
    GetOUI (ListOUIs [exLCEntry]) exLCEntry.OUI = none := by
  exact ⟨by decide, by decide⟩

/-- C4 (amended): every entry of a loaded registry whose stored prefix is
uppercase-canonical and which is the first entry in load order bearing
that prefix is retrievable via GetOUI applied to its own prefix, which
returns that very entry. -/
theorem c4_amended_roundtrip (text : String) (mp : List (String × OUIData))
    (l : List OUIData) (e : OUIData)
    ( _hload : makeMACHashMap text = some (mp, l)) ( _he : e ∈ ListOUIs l)
    (hupper : goToUpper e.OUI = e.OUI)
    (hfirst : (ListOUIs l).find? (fun o => o.OUI == e.OUI) = some e) :
    GetOUI (ListOUIs l) e.OUI = some e := by
  show l.find? (fun o => o.OUI == goToUpper e.OUI) = some e
  rw [hupper]
  exact hfirst

/-- C4 witness: the amended round-trip at the registry loaded from
exSkipText. -/
theorem c4_witness :
    makeMACHashMap exSkipText = some (exSkipMap, [exGoodEntry]) ∧
    GetOUI (ListOUIs [exGoodEntry]) exGoodEntry.OUI = some exGoodEntry := by
  have hload : makeMACHashMap exSkipText = some (exSkipMap, [exGoodEntry]) := by decide
  exact ⟨hload, c4_amended_roundtrip exSkipText exSkipMap [exGoodEntry] exGoodEntry
    hload (by decide) (by decide) (by decide)⟩

/-- C5: for every registry and every input whose normalized form does not
have length 12, resolve returns the empty string, the NotFound result;
the embedded function is total, so no fatal error or termination occurs. -/
theorem c5_bad_length_not_found (allOUIs : List OUIData) (mac : String)
    (h : (normalizeMacStr mac).length ≠ 12) :
    GetVendorFromMAC allOUIs mac = "" := by
  unfold GetVendorFromMAC normalizeMac
  rw [if_neg h]

/-- C5 witness: the address AA-BB-CC normalizes to 6 characters and
resolves to NotFound. -/
theorem c5_witness :
    (normalizeMacStr "AA-BB-CC").length ≠ 12 ∧
    GetVendorFromMAC [exGoodEntry] "AA-BB-CC" = "" := by
  exact ⟨by decide, c5_bad_length_not_found [exGoodEntry] "AA-BB-CC" (by decide)⟩

/-- C6: for every input whose normalized form has length 12, resolve
delegates to GetOUI on the first six characters of the normalized string
and returns exactly the matched entry's vendor name on a match and the
NotFound empty string on no match. -/
theorem c6_resolve_delegates (allOUIs : List OUIData) (mac : String)
    (h : (normalizeMacStr mac).length = 12) :
    (∀ e, GetOUI allOUIs (String.mk ((normalizeMacStr mac).data.take 6)) = some e →
      GetVendorFromMAC allOUIs mac = e.VendorName) ∧
    (GetOUI allOUIs (String.mk ((normalizeMacStr mac).data.take 6)) = none →
      GetVendorFromMAC allOUIs mac = "") := by
  constructor
  · intro e hget
    unfold GetVendorFromMAC normalizeMac
    rw [if_pos h]
    show (match GetOUI allOUIs (String.mk ((normalizeMacStr mac).data.take 6)) with
      | some o => o.VendorName
      | none => "") = e.VendorName
    rw [hget]
  · intro hget
    unfold GetVendorFromMAC normalizeMac
    rw [if_pos h]
    show (match GetOUI allOUIs (String.mk ((normalizeMacStr mac).data.take 6)) with
      | some o => o.VendorName
      | none => "") = ""
    rw [hget]

/-- C6 witness: resolving AA:BB:CC:11:22:33 against the registry holding
exGoodEntry returns that entry's vendor name. -/
theorem c6_witness :
    (normalizeMacStr "AA:BB:CC:11:22:33").length = 12 ∧
    GetVendorFromMAC [exGoodEntry] "AA:BB:CC:11:22:33" = exGoodEntry.VendorName := by
  exact ⟨by decide, (c6_resolve_delegates [exGoodEntry] "AA:BB:CC:11:22:33"
    (by decide)).1 exGoodEntry (by decide)⟩

/-- C7: for any registry, resolve returns the same result on the three
inputs AA-BB-CC-11-22-33, aa:bb:cc:11:22:33 and AABBCC112233: the
delimiters are stripped by normalization and the case difference is
erased because GetOUI uppercases its input before comparing. -/
theorem c7_delimiter_and_case_invariance (allOUIs : List OUIData) :
    GetVendorFromMAC allOUIs "AA-BB-CC-11-22-33" =
      GetVendorFromMAC allOUIs "aa:bb:cc:11:22:33" ∧
    GetVendorFromMAC allOUIs "aa:bb:cc:11:22:33" =
      GetVendorFromMAC allOUIs "AABBCC112233" := by
  have h1 : normalizeMac "AA-BB-CC-11-22-33" = some "AABBCC112233" := by decide
  have h2 : normalizeMac "aa:bb:cc:11:22:33" = some "aabbcc112233" := by decide
  have h3 : normalizeMac "AABBCC112233" = some "AABBCC112233" := by decide
  have hA : String.mk (("AABBCC112233" : String).data.take 6) = "AABBCC" := by decide
  have ha : String.mk (("aabbcc112233" : String).data.take 6) = "aabbcc" := by decide
  have hup : GetOUI allOUIs "aabbcc" = GetOUI allOUIs "AABBCC" := by
    unfold GetOUI
    rw [show goToUpper "aabbcc" = goToUpper "AABBCC" from by decide]
  constructor
  · unfold GetVendorFromMAC
    rw [h1, h2]
    show (match GetOUI allOUIs (String.mk (("AABBCC112233" : String).data.take 6)) with
      | some o => o.VendorName
      | none => "") =
      (match GetOUI allOUIs (String.mk (("aabbcc112233" : String).data.take 6)) with
      | some o => o.VendorName
      | none => "")
    rw [hA, ha, hup]
  · unfold GetVendorFromMAC
    rw [h2, h3]
    show (match GetOUI allOUIs (String.mk (("aabbcc112233" : String).data.take 6)) with
      | some o => o.VendorName
      | none => "") =
      (match GetOUI allOUIs (String.mk (("AABBCC112233" : String).data.take 6)) with
      | some o => o.VendorName
      | none => "")
    rw [hA, ha, hup]

/-- C8: for every source text, the load succeeds and produces exactly one
entry per pattern match of the source, in match order (the loaded list is
the pointwise image of the ordered match list), so its length equals the
number of syntactically valid two-line records; moreover the extracted
prefix of every match parses in base 16, so no match is excluded. -/
theorem c8_load_order_and_length (text : String) :
    loadedOUIs text = some ((findAllOUIMatches text).map entryOfMatch) ∧
    ((findAllOUIMatches text).map entryOfMatch).length =
      (findAllOUIMatches text).length ∧
    ((findAllOUIMatches text).all
      fun m => (goParseInt16_48 (String.mk m.oui)).isSome) = true := by
  refine ⟨?_, by simp, ?_⟩
  · rw [loadedOUIs, makeMACHashMap,
      makeAux_eq (findAllOUIMatches text) (findAll_ouiOK text) [] []]
    rfl
  · rw [List.all_eq_true]
    intro m hm
    obtain ⟨hlen, hall⟩ := findAll_ouiOK text m hm
    exact goParseInt_hex6 m.oui hlen hall

/-- C9: the NotFound result of resolve is the empty string, and a matched
entry whose vendor name is empty (as happens when the source's name field
is all whitespace, which NewOUI trims to the empty string, third
conjunct) also makes resolve return the empty string (first conjunct),
so such a match is indistinguishable from the no-match case (second
conjunct) at the public interface. -/
theorem c9_empty_vendor_indistinguishable :
    (∀ (allOUIs : List OUIData) (mac : String) (e : OUIData),
      (normalizeMacStr mac).length = 12 →
      GetOUI allOUIs (String.mk ((normalizeMacStr mac).data.take 6)) = some e →
      e.VendorName = "" →
      GetVendorFromMAC allOUIs mac = "") ∧
    (∀ (allOUIs : List OUIData) (mac : String),
      (normalizeMacStr mac).length = 12 →
      GetOUI allOUIs (String.mk ((normalizeMacStr mac).data.take 6)) = none →
      GetVendorFromMAC allOUIs mac = "") ∧
    NewOUI "AABBCC" "   " "Alt" = some exEmptyEntry := by
  refine ⟨?_, ?_, by decide⟩
  · intro a mac e hlen hget hvn
    unfold GetVendorFromMAC normalizeMac
    rw [if_pos hlen]
    show (match GetOUI a (String.mk ((normalizeMacStr mac).data.take 6)) with
      | some o => o.VendorName
      | none => "") = ""
    rw [hget]
    exact hvn
  · intro a mac hlen hget
    unfold GetVendorFromMAC normalizeMac
    rw [if_pos hlen]
    show (match GetOUI a (String.mk ((normalizeMacStr mac).data.take 6)) with
      | some o => o.VendorName
      | none => "") = ""
    rw [hget]

/-- C9 witness: the registry loaded from exEmptyText holds an entry with
empty vendor name; resolving an address matching it gives the empty
string, exactly as resolving an address matching nothing. -/
theorem c9_witness :
    loadedOUIs exEmptyText = some [exEmptyEntry] ∧
    GetVendorFromMAC [exEmptyEntry] "AA-BB-CC-00-00-01" = "" ∧
    GetVendorFromMAC [exEmptyEntry] "FF-FF-FF-00-00-01" = "" := by
  refine ⟨by decide, ?_, ?_⟩
  · exact c9_empty_vendor_indistinguishable.1 [exEmptyEntry] "AA-BB-CC-00-00-01"
      exEmptyEntry (by decide) (by decide) rfl
  · exact c9_empty_vendor_indistinguishable.2.1 [exEmptyEntry] "FF-FF-FF-00-00-01"
      (by decide) (by decide)

/-- C10: over any loaded registry, GetOUI returns the entry loaded
earliest among those bearing the looked-up (uppercased) prefix — the
first hit of a linear scan of the load-ordered list — while the map built
by the loader associates each prefix with the entry loaded last (the
first hit scanning the list backwards); the list view keeps every
duplicate. -/
theorem c10_get_first_wins_map_last_wins (text : String)
    (mp : List (String × OUIData)) (l : List OUIData) (p : String)
    (hload : makeMACHashMap text = some (mp, l)) :
    GetOUI (ListOUIs l) p = (ListOUIs l).find? (fun o => o.OUI == goToUpper p) ∧
    mapLookup mp p = (ListOUIs l).reverse.find? (fun o => o.OUI == p) := by
  constructor
  · rfl
  · rw [makeMACHashMap,
      makeAux_eq (findAllOUIMatches text) (findAll_ouiOK text) [] []] at hload
    have h2 := Option.some.inj hload
    rw [Prod.mk.injEq] at h2
    obtain ⟨hmp, hl⟩ := h2
    rw [← hmp, ← hl, mapLookup_foldl]
    simp [mapLookup, ListOUIs]

/-- C10 witness: the source exDupText holds two records with prefix
AABBCC; both entries are loaded, GetOUI returns the first, the map holds
the second, and the two entries differ. -/
theorem c10_witness :
    makeMACHashMap exDupText = some (exDupMap, [exDupE1, exDupE2]) ∧
    GetOUI (ListOUIs [exDupE1, exDupE2]) "AABBCC" = some exDupE1 ∧
    mapLookup exDupMap "AABBCC" = some exDupE2 ∧
    exDupE1 ≠ exDupE2 := by
  have hload : makeMACHashMap exDupText = some (exDupMap, [exDupE1, exDupE2]) := by
    decide
  have h := c10_get_first_wins_map_last_wins exDupText exDupMap [exDupE1, exDupE2]
    "AABBCC" hload
  refine ⟨hload, ?_, ?_, by decide⟩
  · rw [h.1]
    decide
  · rw [h.2]
    decide

end Ilack
